import Mathlib

/-!
Shallow embedding of the OpenPrequal load-balancing subsystem
(probe pool, Prequal chooser, backend registry, probe manager,
proxy forwarder gate, backend-side metrics manager).

Python floats are modelled as rationals (ℚ), with `ExtQ` adding the
`float("inf")` value used by the chooser.  Python dicts that must keep
insertion order (the probe pool, the registry map) are association
lists; dicts used purely as key-value caches are functions to `Option`.
-/

namespace OpenPrequal

/-- Extended rationals: a rational value or `float("inf")`. -/
inductive ExtQ where
  | inf : ExtQ
  | val : ℚ → ExtQ
deriving DecidableEq, Repr

/-- `a ≤ b` on `ExtQ` (`inf` is the top element). -/
def ExtQ.le : ExtQ → ExtQ → Bool
  | _, .inf => true
  | .inf, .val _ => false
  | .val a, .val b => decide (a ≤ b)

/-- `a < b` on `ExtQ`. -/
def ExtQ.lt : ExtQ → ExtQ → Bool
  | .inf, _ => false
  | .val _, .inf => true
  | .val a, .val b => decide (a < b)

/-- Binary minimum on `ExtQ`. -/
def ExtQ.min (a b : ExtQ) : ExtQ := if a.le b then a else b

/-- Minimum of a list of `ExtQ` values (`inf` on the empty list;
Python's `min` raises there, and every use below is guarded by a
non-emptiness hypothesis). -/
def listMinE (l : List ExtQ) : ExtQ := l.foldr ExtQ.min .inf

/-- Exact rational division, phrased through `Rat.divInt` so that it
reduces inside the kernel (the `Rat` field operations carry
`@[irreducible]`); `ratDiv_eq_div` below shows it is ordinary
division, and `ratAdd` / `ratSub` / `ratSum` are the same device for
the other operations the embedding evaluates. -/
def ratDiv (a b : ℚ) : ℚ := Rat.divInt (a.num * b.den) (a.den * b.num)

/-- Exact rational addition in kernel-reducible form. -/
def ratAdd (a b : ℚ) : ℚ :=
  Rat.divInt (a.num * b.den + b.num * a.den) (a.den * b.den)

/-- Exact rational subtraction in kernel-reducible form. -/
def ratSub (a b : ℚ) : ℚ :=
  Rat.divInt (a.num * b.den - b.num * a.den) (a.den * b.den)

/-- Sum of a list of rationals in kernel-reducible form. -/
def ratSum (l : List ℚ) : ℚ := l.foldr ratAdd 0

theorem ratDiv_eq_div (a b : ℚ) : ratDiv a b = a / b := by
  rcases eq_or_ne b 0 with rfl | hb
  · simp [ratDiv]
  · have hbn : (b.num : ℚ) ≠ 0 := by
      exact_mod_cast Rat.num_ne_zero.mpr hb
    have had : ((a.den : ℚ)) ≠ 0 := by
      exact_mod_cast a.den_nz
    rw [ratDiv, Rat.divInt_eq_div]
    push_cast
    conv_rhs => rw [← Rat.num_div_den a, ← Rat.num_div_den b]
    field_simp

theorem ratAdd_eq_add (a b : ℚ) : ratAdd a b = a + b := by
  have had : ((a.den : ℚ)) ≠ 0 := by exact_mod_cast a.den_nz
  have hbd : ((b.den : ℚ)) ≠ 0 := by exact_mod_cast b.den_nz
  rw [ratAdd, Rat.divInt_eq_div]
  push_cast
  conv_rhs => rw [← Rat.num_div_den a, ← Rat.num_div_den b]
  field_simp

theorem ratSub_eq_sub (a b : ℚ) : ratSub a b = a - b := by
  have had : ((a.den : ℚ)) ≠ 0 := by exact_mod_cast a.den_nz
  have hbd : ((b.den : ℚ)) ≠ 0 := by exact_mod_cast b.den_nz
  rw [ratSub, Rat.divInt_eq_div]
  push_cast
  conv_rhs => rw [← Rat.num_div_den a, ← Rat.num_div_den b]
  field_simp
  ring

theorem ratSum_eq_sum (l : List ℚ) : ratSum l = l.sum := by
  induction l with
  | nil => rfl
  | cons x xs ih => rw [ratSum, List.foldr_cons, ← ratSum, ih, ratAdd_eq_add,
      List.sum_cons]

/-- Python `statistics.median`: sort, take the middle element (odd
length) or the mean of the two middle elements (even length). -/
def pymedian (l : List ℚ) : ℚ :=
  let s := l.insertionSort (· ≤ ·)
  let n := s.length
  if n % 2 = 1 then s.getD (n / 2) 0
  else ratDiv (ratAdd (s.getD (n / 2 - 1) 0) (s.getD (n / 2) 0)) 2

/-- Append to a `collections.deque(maxlen = cap)`: push at the back,
dropping from the front when the capacity is exceeded. -/
def dequeAppend (cap : Nat) (l : List ℚ) (x : ℚ) : List ℚ :=
  let l' := l ++ [x]
  if cap < l'.length then l'.drop (l'.length - cap) else l'

/-- Temperature stored by the probe pool / derived by the chooser. -/
inductive Temp where
  | hot : Temp
  | cold : Temp
deriving DecidableEq, Repr

/-- `contracts.backend.Backend` (pydantic model); metric fields as used
by the registries and the spec data model. -/
structure Backend where
  url : String
  port : Option ℤ := none
  health : Bool := false
  in_flight_requests : ℚ := 0
  rif_avg_latency : ℚ := 0
  overall_avg_latency : ℚ := 0
deriving DecidableEq, Repr

/-! ## Probe pool (`core/probe_pool.py`) -/

/-- One value of the `ProbePool.probes` dict:
`{'latencies': deque, 'rif_values': deque, 'timestamp': float,
'current_rif': float, 'current_latency': float}` plus the
`'temperature'` key written by `add_probe`. -/
structure PoolEntry where
  latencies : List ℚ
  rifs : List ℚ
  timestamp : ℚ
  currentRif : ℚ
  currentLatency : ℚ
  temperature : Option Temp
deriving DecidableEq, Repr

/-- The probe-pool state: the `probes` dict in insertion order. -/
abbrev PoolState := List (String × PoolEntry)

/-- Lookup in an insertion-ordered dict. -/
def alookup {β : Type} (l : List (String × β)) (k : String) : Option β :=
  (l.find? (fun p => p.1 = k)).map (fun p => p.2)

/-- `ProbePool.max_backends`. -/
def maxBackends : Nat := 16

/-- Fresh `probes[backend_id]` entry created by `add_probe`. -/
def freshEntry (now : ℚ) : PoolEntry :=
  { latencies := [], rifs := [], timestamp := now,
    currentRif := 0, currentLatency := 0, temperature := none }

/-- `ProbePool.add_probe(backend_id, latency, rif_value)`:
create the entry if absent (evicting the oldest insertion when the
pool is full), append to both windows (cap 1000), refresh the
timestamp, set `current_latency` to the mean of the latency window,
and set `temperature` to `"hot"` iff the probed RIF is strictly
greater than the median of the (post-append) RIF window.
`probeUpdate` is the per-entry mutation, `addProbe` the whole call. -/
def probeUpdate (latency rifValue now : ℚ) (e : PoolEntry) : PoolEntry :=
  let lats := dequeAppend 1000 e.latencies latency
  let rfs := dequeAppend 1000 e.rifs rifValue
  { e with
    latencies := lats
    rifs := rfs
    timestamp := now
    currentLatency := ratDiv (ratSum lats) (lats.length : ℚ)
    temperature :=
      some (if pymedian rfs < rifValue then Temp.hot else Temp.cold) }

def addProbe (st : PoolState) (backendId : String) (latency rifValue now : ℚ) :
    PoolState :=
  let st1 : PoolState :=
    if (alookup st backendId).isNone then
      let st' := if maxBackends ≤ st.length then st.drop 1 else st
      st' ++ [(backendId, freshEntry now)]
    else st
  st1.map (fun p =>
    if p.1 = backendId then (p.1, probeUpdate latency rifValue now p.2) else p)

/-- `ProbePool.get_current_rifs(backend_ids)`:
`[self.probes.get(bid, {}).get("current_rif", None) for bid in backend_ids]`. -/
def getCurrentRifs (st : PoolState) (backendIds : List String) :
    List (Option ℚ) :=
  backendIds.map (fun bid => (alookup st bid).map PoolEntry.currentRif)

/-- Run a sequence of `add_probe` calls (url, latency, rif, now). -/
def runProbes (ops : List (String × ℚ × ℚ × ℚ)) (st : PoolState) : PoolState :=
  ops.foldl (fun s op => addProbe s op.1 op.2.1 op.2.2.1 op.2.2.2) st

/-- The empty probe pool. -/
def emptyPool : PoolState := []

/-! ## Prequal chooser (`algorithms/prequal_load_balancer.py`)

The chooser reads the probe pool through `get_rif_values(url)` (the
RIF window of a backend, `[]` when untracked) and
`get_current_latency(url)` (the windowed mean latency, `None` when
untracked); both are modelled as explicit maps.
`_classify_backends` carries a per-URL median cache keyed on
`(len(rifs), rifs[-1])`; the key does not capture every window change
(a full capped deque shifted by a probe repeating the last RIF, or an
eviction-and-rebuild, preserves it), so the classifier can compare
against a stale median.  The cache (`_rif_last_info` and
`_rif_median_cache`) is therefore part of the modelled state. -/

/-- The cold test with the true window median: cold when the RIF
window is empty (`if not rifs`) or its last RIF is strictly below
`median(rifs)`.  This is what `_classify_backends` computes whenever
the URL's median-cache entry is absent, mismatched, or coherent with
the current window. -/
def isColdRifs (rifs : List ℚ) : Bool :=
  match rifs.getLast? with
  | none => true
  | some last => decide (last < pymedian rifs)

/-- The chooser's per-URL median cache: `_rif_last_info`
(the `(count, last)` key of the window the median was computed on)
and `_rif_median_cache` (the median value stored for that key). -/
structure ChooserCache where
  rifLastInfo : String → Option (Nat × ℚ)
  rifMedianCache : String → Option ℚ

/-- The cache state of a freshly constructed balancer. -/
def emptyCache : ChooserCache :=
  { rifLastInfo := fun _ => none, rifMedianCache := fun _ => none }

/-- The median lookup of `_classify_backends` for one backend: when
the stored key equals the current `(len(rifs), rifs[-1])` and a
median is cached (`last_info == cache_key and url in
self._rif_median_cache`), the cached value is served unchanged;
otherwise `median(rifs)` is computed and both cache maps are
updated. -/
def classifyMedian (cs : ChooserCache) (url : String) (rifs : List ℚ) :
    ℚ × ChooserCache :=
  if cs.rifLastInfo url = some (rifs.length, rifs.getLast?.getD 0)
      ∧ (cs.rifMedianCache url).isSome then
    ((cs.rifMedianCache url).getD 0, cs)
  else
    (pymedian rifs,
      { rifLastInfo := fun u =>
          if u = url then some (rifs.length, rifs.getLast?.getD 0)
          else cs.rifLastInfo u
        rifMedianCache := fun u =>
          if u = url then some (pymedian rifs) else cs.rifMedianCache u })

/-- `_classify_backends`: partition the backends, in order, into the
cold and hot lists, threading the median cache through the loop.  A
backend with an empty window goes cold without touching the cache
(`if not rifs: cold.append(backend); continue`); otherwise it is cold
exactly when its last RIF is strictly below the (possibly cached)
median (`if last < med`). -/
def classifyBackends (rifsMap : String → List ℚ) :
    List Backend → ChooserCache →
    List Backend × List Backend × ChooserCache
  | [], cs => ([], [], cs)
  | b :: rest, cs =>
    let rifs := rifsMap b.url
    if rifs.isEmpty then
      let r := classifyBackends rifsMap rest cs
      (b :: r.1, r.2.1, r.2.2)
    else
      let mc := classifyMedian cs b.url rifs
      let r := classifyBackends rifsMap rest mc.2
      if rifs.getLast?.getD 0 < mc.1 then (b :: r.1, r.2.1, r.2.2)
      else (r.1, b :: r.2.1, r.2.2)

/-- Python truthiness coercion `x or float("inf")` applied to an
optional latency: `None` and `0.0` (both falsy) become `inf`. -/
def pyOrInf (o : Option ℚ) : ExtQ :=
  match o with
  | none => .inf
  | some q => if q = 0 then .inf else .val q

/-- The latency `_select_backend` attributes to a cold backend: the
cached value when the cache entry is fresh
(`now - cache_time < self._cache_timeout and url in cache`), else the
freshly fetched pool latency run through `or float("inf")`
(the merge loop at `cached_latencies[i] = fresh_latencies[uncached_idx]
or float("inf")`; the final `l if l is not None else float("inf")`
pass is the identity on the values produced here). -/
def coldLatency (cacheFresh : String → Bool) (cacheVal : String → Option ℚ)
    (poolLat : String → Option ℚ) (u : String) : ExtQ :=
  if cacheFresh u ∧ (cacheVal u).isSome then .val ((cacheVal u).getD 0)
  else pyOrInf (poolLat u)

/-- The cold branch of `_select_backend`: all cold backends attaining
the minimal latency (`candidates`); `random.choice` then picks one of
them uniformly, which the embedding models by returning the whole
candidate list. -/
def selectColdCandidates (cacheFresh : String → Bool)
    (cacheVal : String → Option ℚ) (poolLat : String → Option ℚ)
    (cold : List Backend) : List Backend :=
  ((cold.zip
      (cold.map (fun b => coldLatency cacheFresh cacheVal poolLat b.url))).filter
    (fun p =>
      p.2 = listMinE
        (cold.map (fun b => coldLatency cacheFresh cacheVal poolLat b.url)))).map
    Prod.fst

/-- The current RIF the hot branch attributes to a backend:
`rifs_map.get(b.url, [None])[-1] or float("inf")` — the last window
value, with a missing window and a last value of `0.0` both coerced
to `inf` (in the chooser flow every hot backend has a non-empty
window, so the missing case is unreachable there). -/
def pyLastOrInf (rifs : List ℚ) : ExtQ :=
  match rifs.getLast? with
  | none => .inf
  | some q => if q = 0 then .inf else .val q

/-- The hot branch of `_select_backend`: all hot backends attaining
the minimal current RIF. -/
def selectHotCandidates (rifsMap : String → List ℚ) (hot : List Backend) :
    List Backend :=
  ((hot.zip (hot.map (fun b => pyLastOrInf (rifsMap b.url)))).filter
    (fun p =>
      p.2 = listMinE (hot.map (fun b => pyLastOrInf (rifsMap b.url))))).map
    Prod.fst

/-- `_select_backend(cold, hot, rifs_map)` as the list of possible
selections (`if cold:` takes the cold branch on a non-empty cold
list). -/
def selectBackendCandidates (cacheFresh : String → Bool)
    (cacheVal : String → Option ℚ) (poolLat : String → Option ℚ)
    (rifsMap : String → List ℚ) (cold hot : List Backend) : List Backend :=
  if cold.isEmpty then selectHotCandidates rifsMap hot
  else selectColdCandidates cacheFresh cacheVal poolLat cold

/-- `get_next_backend()` as the list of URLs it can return (`[]`
models the `None` result), given the balancer's median-cache state.
The short-lived healthy-backends cache is read in its expired state,
i.e. the registry list is fetched fresh. -/
def getNextBackendCandidates (backends : List Backend)
    (rifsMap : String → List ℚ) (cs : ChooserCache)
    (cacheFresh : String → Bool)
    (cacheVal : String → Option ℚ) (poolLat : String → Option ℚ) :
    List String :=
  let healthy := backends.filter (fun b => b.health)
  if healthy.isEmpty then []
  else
    let ch := classifyBackends rifsMap healthy cs
    (selectBackendCandidates cacheFresh cacheVal poolLat rifsMap ch.1
      ch.2.1).map Backend.url

/-! ### Order facts about `ExtQ` and the list minimum -/

theorem ExtQ.le_refl (a : ExtQ) : a.le a = true := by
  cases a <;> simp [ExtQ.le]

theorem ExtQ.le_total (a b : ExtQ) : a.le b = true ∨ b.le a = true := by
  cases a <;> cases b <;> simp [ExtQ.le] <;> exact LinearOrder.le_total _ _

theorem ExtQ.le_trans {a b c : ExtQ} (h₁ : a.le b = true) (h₂ : b.le c = true) :
    a.le c = true := by
  cases a <;> cases b <;> cases c <;> simp [ExtQ.le] at * <;> exact h₁.trans h₂

theorem ExtQ.min_le_left (a b : ExtQ) : (ExtQ.min a b).le a = true := by
  rw [ExtQ.min]
  by_cases h : a.le b = true
  · simp [h, ExtQ.le_refl]
  · rcases ExtQ.le_total a b with h' | h'
    · exact absurd h' h
    · simp [h, h']

theorem ExtQ.min_le_right (a b : ExtQ) : (ExtQ.min a b).le b = true := by
  rw [ExtQ.min]
  by_cases h : a.le b = true
  · simp [h]
  · simp [h, ExtQ.le_refl]

theorem listMinE_mem {l : List ExtQ} (h : l ≠ []) : listMinE l ∈ l := by
  induction l with
  | nil => exact absurd rfl h
  | cons a t ih =>
    cases t with
    | nil =>
      have : listMinE [a] = a := by
        simp [listMinE, ExtQ.min, ExtQ.le]
      simp [this]
    | cons b t' =>
      have hm : listMinE (a :: b :: t') = ExtQ.min a (listMinE (b :: t')) := rfl
      rw [hm, ExtQ.min]
      by_cases hle : a.le (listMinE (b :: t')) = true
      · simp [hle]
      · simp only [hle, if_false]
        exact List.mem_cons_of_mem a (ih (by simp))

theorem listMinE_le {l : List ExtQ} {x : ExtQ} (hx : x ∈ l) :
    (listMinE l).le x = true := by
  induction l with
  | nil => cases hx
  | cons a t ih =>
    have hm : listMinE (a :: t) = ExtQ.min a (listMinE t) := rfl
    rcases List.mem_cons.mp hx with rfl | hx'
    · rw [hm]; exact ExtQ.min_le_left _ _
    · rw [hm]
      exact ExtQ.le_trans (ExtQ.min_le_right a (listMinE t)) (ih hx')

/-! ### The argmin shape shared by both `_select_backend` branches -/

/-- Both selection branches compute
`[xs[i] for i, v in enumerate(vals) if v == best]` with
`vals = map f xs`; this is the filter by `f · = best`. -/
theorem zip_filter_eq_filter {α : Type} (f : α → ExtQ) (l : List α)
    (best : ExtQ) :
    ((l.zip (l.map f)).filter (fun p => decide (p.2 = best))).map Prod.fst
      = l.filter (fun b => decide (f b = best)) := by
  induction l with
  | nil => rfl
  | cons a t ih =>
    by_cases h : f a = best <;> simp [List.filter_cons, h, ih]

/-- The element set of the generic argmin filter: non-empty on
non-empty input, and every member attains a value `≤` every other
value in the list. -/
theorem filter_argmin_spec {α : Type} (f : α → ExtQ) (l : List α)
    (h : l ≠ []) :
    l.filter (fun b => decide (f b = listMinE (l.map f))) ≠ [] ∧
      ∀ b ∈ l.filter (fun b => decide (f b = listMinE (l.map f))),
        b ∈ l ∧ ∀ c ∈ l, (f b).le (f c) = true := by
  have hmap : l.map f ≠ [] := by
    cases l with
    | nil => exact absurd rfl h
    | cons a t => simp
  have hbestmem : listMinE (l.map f) ∈ l.map f := listMinE_mem hmap
  obtain ⟨b0, hb0, hfb0⟩ := List.mem_map.mp hbestmem
  constructor
  · intro hnil
    have : b0 ∈ l.filter (fun b => decide (f b = listMinE (l.map f))) :=
      List.mem_filter.mpr ⟨hb0, by simp [hfb0]⟩
    rw [hnil] at this
    cases this
  · intro b hb
    obtain ⟨hbL, hbP⟩ := List.mem_filter.mp hb
    refine ⟨hbL, fun c hc => ?_⟩
    have hfb : f b = listMinE (l.map f) := by simpa using hbP
    rw [hfb]
    exact listMinE_le (List.mem_map.mpr ⟨c, hc, rfl⟩)

/-! ### Association-list lemmas -/

/-- Update an insertion-ordered dict: replace in place when the key is
present, append otherwise. -/
def aset {β : Type} (l : List (String × β)) (k : String) (v : β) :
    List (String × β) :=
  if l.any (fun p => p.1 = k) then
    l.map (fun p => if p.1 = k then (k, v) else p)
  else l ++ [(k, v)]

theorem alookup_cons {β : Type} (p : String × β) (l : List (String × β))
    (k : String) :
    alookup (p :: l) k = if p.1 = k then some p.2 else alookup l k := by
  by_cases h : p.1 = k <;> simp [alookup, List.find?_cons, h]

theorem alookup_map_update {β : Type} (l : List (String × β)) (k : String)
    (g : β → β) :
    alookup (l.map (fun p => if p.1 = k then (p.1, g p.2) else p)) k
      = (alookup l k).map g := by
  induction l with
  | nil => rfl
  | cons p t ih =>
    by_cases h : p.1 = k
    · simp [alookup_cons, h]
    · simp [alookup_cons, h, ih]

theorem alookup_eq_none_iff {β : Type} (l : List (String × β)) (k : String) :
    alookup l k = none ↔ ∀ p ∈ l, p.1 ≠ k := by
  simp [alookup, List.find?_eq_none]

theorem alookup_drop_none {β : Type} {l : List (String × β)} {k : String}
    (h : alookup l k = none) (n : Nat) : alookup (l.drop n) k = none := by
  rw [alookup_eq_none_iff] at h ⊢
  exact fun p hp => h p (List.mem_of_mem_drop hp)

theorem alookup_append_of_none {β : Type} {l₁ : List (String × β)} {k : String}
    (h : alookup l₁ k = none) (l₂ : List (String × β)) :
    alookup (l₁ ++ l₂) k = alookup l₂ k := by
  induction l₁ with
  | nil => rfl
  | cons p t ih =>
    rw [alookup_cons] at h
    by_cases hp : p.1 = k
    · simp [hp] at h
    · rw [List.cons_append, alookup_cons, if_neg hp]
      exact ih (by simpa [hp] using h)

theorem aset_cons_ne {β : Type} {p : String × β} {k : String} (h : p.1 ≠ k)
    (t : List (String × β)) (v : β) : aset (p :: t) k v = p :: aset t k v := by
  have hd : (decide (p.1 = k)) = false := by simp [h]
  rw [aset, aset]
  simp only [List.any_cons, hd, Bool.false_or]
  by_cases ha : t.any (fun q => decide (q.1 = k)) = true
  · simp [ha, h]
  · simp [ha, h]

theorem alookup_aset_self {β : Type} (l : List (String × β)) (k : String)
    (v : β) : alookup (aset l k v) k = some v := by
  induction l with
  | nil => simp [aset, alookup_cons]
  | cons p t ih =>
    by_cases h : p.1 = k
    · have hany : ((p :: t).any (fun q => decide (q.1 = k))) = true := by
        simp [List.any_cons, h]
      rw [aset, if_pos hany, List.map_cons, if_pos h, alookup_cons]
      simp
    · rw [aset_cons_ne h, alookup_cons, if_neg h]
      exact ih

theorem mem_aset_self {β : Type} (l : List (String × β)) (k : String)
    (v : β) : (k, v) ∈ aset l k v := by
  rw [aset]
  by_cases ha : l.any (fun p => decide (p.1 = k)) = true
  · rw [if_pos ha]
    obtain ⟨p, hp, hpk⟩ := List.any_eq_true.mp ha
    have hpk' : p.1 = k := by simpa using hpk
    have hmem := List.mem_map_of_mem
      (fun q : String × β => if q.1 = k then (k, v) else q) hp
    simpa [hpk'] using hmem
  · rw [if_neg ha]
    exact List.mem_append_right _ (by simp)

theorem alookup_map_const_ne {β : Type} (l : List (String × β))
    {k k' : String} (hne : k' ≠ k) (v : β) :
    alookup (l.map (fun p => if p.1 = k then (k, v) else p)) k'
      = alookup l k' := by
  induction l with
  | nil => rfl
  | cons p t ih =>
    by_cases hq : p.1 = k
    · rw [List.map_cons, if_pos hq, alookup_cons, alookup_cons,
        if_neg (fun h => hne h.symm), if_neg (fun h => hne (hq ▸ h).symm)]
      exact ih
    · rw [List.map_cons, if_neg hq, alookup_cons, alookup_cons]
      by_cases hp : p.1 = k' <;> simp [hp, ih]

theorem alookup_append_singleton_ne {β : Type} (l : List (String × β))
    {k k' : String} (hne : k' ≠ k) (v : β) :
    alookup (l ++ [(k, v)]) k' = alookup l k' := by
  induction l with
  | nil =>
    rw [List.nil_append, alookup_cons, if_neg (fun h => hne h.symm)]
  | cons p t ih =>
    rw [List.cons_append, alookup_cons, alookup_cons]
    by_cases hp : p.1 = k' <;> simp [hp, ih]

theorem alookup_aset_ne {β : Type} (l : List (String × β)) {k k' : String}
    (hne : k' ≠ k) (v : β) : alookup (aset l k v) k' = alookup l k' := by
  rw [aset]
  by_cases ha : l.any (fun p => decide (p.1 = k)) = true
  · rw [if_pos ha]
    exact alookup_map_const_ne l hne v
  · rw [if_neg ha]
    exact alookup_append_singleton_ne l hne v

/-! ### Probe pool and classification lemmas -/

theorem dequeAppend_getLast {cap : Nat} (hc : 1 ≤ cap) (l : List ℚ) (x : ℚ) :
    (dequeAppend cap l x).getLast? = some x := by
  rw [dequeAppend]
  by_cases h : cap < (l ++ [x]).length
  · rw [if_pos h]
    have hk : (l ++ [x]).length - cap ≤ l.length := by
      rw [List.length_append]
      simp only [List.length_singleton]
      omega
    rw [List.drop_append_of_le_length hk]
    exact List.getLast?_concat _
  · rw [if_neg h]
    exact List.getLast?_concat _

/-- The entry `add_probe` leaves for the probed URL: its previous
entry (or a fresh one) run through the per-entry mutation. -/
theorem lookup_addProbe_self (st : PoolState) (u : String) (lat rif now : ℚ) :
    alookup (addProbe st u lat rif now) u
      = some (probeUpdate lat rif now ((alookup st u).getD (freshEntry now))) := by
  rw [addProbe]
  cases h : alookup st u with
  | none =>
    have hst' : alookup (if maxBackends ≤ st.length then st.drop 1 else st) u
        = none := by
      by_cases hl : maxBackends ≤ st.length
      · rw [if_pos hl]; exact alookup_drop_none h 1
      · rw [if_neg hl]; exact h
    simp only [h, Option.isNone_none, if_true, Option.getD_none]
    rw [alookup_map_update, alookup_append_of_none hst', alookup_cons,
      if_pos rfl]
    rfl
  | some e =>
    simp only [h, Option.isNone_some, Bool.false_eq_true, if_false,
      Option.getD_some]
    rw [alookup_map_update, h]
    rfl

theorem isColdRifs_iff (rifs : List ℚ) :
    isColdRifs rifs = true ↔
      (rifs = [] ∨ ∃ r, rifs.getLast? = some r ∧ r < pymedian rifs) := by
  rw [isColdRifs]
  cases h : rifs.getLast? with
  | none =>
    have : rifs = [] := List.getLast?_eq_none_iff.mp h
    simp [this]
  | some last =>
    have hne : rifs ≠ [] := by
      intro e
      rw [e] at h
      cases h
    constructor
    · intro hlt
      exact Or.inr ⟨last, rfl, by simpa using hlt⟩
    · rintro (he | ⟨r, hr, hlt⟩)
      · exact absurd he hne
      · have hrl : last = r := Option.some.inj hr
        subst hrl
        simpa using hlt

/-- A median-cache state is coherent with the current RIF windows
when every entry whose stored key matches its URL's current
`(len(rifs), rifs[-1])` also stores the true window median.  The
empty cache is coherent with every window map. -/
def cacheCoherent (cs : ChooserCache) (rifsMap : String → List ℚ) : Prop :=
  ∀ url m, cs.rifLastInfo url
      = some ((rifsMap url).length, (rifsMap url).getLast?.getD 0) →
    cs.rifMedianCache url = some m → m = pymedian (rifsMap url)

theorem emptyCache_coherent (rifsMap : String → List ℚ) :
    cacheCoherent emptyCache rifsMap := by
  intro url m h _
  exact absurd h (by simp [emptyCache])

theorem isColdRifs_nonempty {rifs : List ℚ} (h : rifs ≠ []) :
    isColdRifs rifs = decide (rifs.getLast?.getD 0 < pymedian rifs) := by
  cases hg : rifs.getLast? with
  | none => exact absurd (List.getLast?_eq_none_iff.mp hg) h
  | some lastv => simp [isColdRifs, hg]

/-- Under a coherent cache, the classifier's median lookup returns
the true window median. -/
theorem classifyMedian_eq_of_coherent {cs : ChooserCache}
    {rifsMap : String → List ℚ} (hco : cacheCoherent cs rifsMap)
    (url : String) :
    (classifyMedian cs url (rifsMap url)).1 = pymedian (rifsMap url) := by
  rw [classifyMedian]
  by_cases hhit : cs.rifLastInfo url
      = some ((rifsMap url).length, (rifsMap url).getLast?.getD 0)
      ∧ (cs.rifMedianCache url).isSome = true
  · rw [if_pos hhit]
    obtain ⟨m, hm⟩ := Option.isSome_iff_exists.mp hhit.2
    simp [hm, hco url m hhit.1 hm]
  · rw [if_neg hhit]

/-- The classifier's median lookup keeps the cache coherent: a miss
writes the true median of the current window under its key. -/
theorem classifyMedian_coherent_update {cs : ChooserCache}
    {rifsMap : String → List ℚ} (hco : cacheCoherent cs rifsMap)
    (url : String) :
    cacheCoherent (classifyMedian cs url (rifsMap url)).2 rifsMap := by
  rw [classifyMedian]
  by_cases hhit : cs.rifLastInfo url
      = some ((rifsMap url).length, (rifsMap url).getLast?.getD 0)
      ∧ (cs.rifMedianCache url).isSome = true
  · rw [if_pos hhit]
    exact hco
  · rw [if_neg hhit]
    intro u m h1 h2
    by_cases hu : u = url
    · subst hu
      simp only [if_pos rfl] at h2
      exact (Option.some.inj h2).symm
    · simp only [if_neg hu] at h1 h2
      exact hco u m h1 h2

theorem classify_cons_empty (rifsMap : String → List ℚ) (a : Backend)
    (t : List Backend) (cs : ChooserCache)
    (h : (rifsMap a.url).isEmpty = true) :
    classifyBackends rifsMap (a :: t) cs
      = (a :: (classifyBackends rifsMap t cs).1,
          (classifyBackends rifsMap t cs).2.1,
          (classifyBackends rifsMap t cs).2.2) := by
  simp [classifyBackends, h]

theorem classify_cons_cold (rifsMap : String → List ℚ) (a : Backend)
    (t : List Backend) (cs : ChooserCache)
    (hne : ¬ (rifsMap a.url).isEmpty = true)
    (hlt : (rifsMap a.url).getLast?.getD 0
      < (classifyMedian cs a.url (rifsMap a.url)).1) :
    classifyBackends rifsMap (a :: t) cs
      = (a :: (classifyBackends rifsMap t
            (classifyMedian cs a.url (rifsMap a.url)).2).1,
          (classifyBackends rifsMap t
            (classifyMedian cs a.url (rifsMap a.url)).2).2.1,
          (classifyBackends rifsMap t
            (classifyMedian cs a.url (rifsMap a.url)).2).2.2) := by
  simp [classifyBackends, hne, hlt]

theorem classify_cons_hot (rifsMap : String → List ℚ) (a : Backend)
    (t : List Backend) (cs : ChooserCache)
    (hne : ¬ (rifsMap a.url).isEmpty = true)
    (hge : ¬ (rifsMap a.url).getLast?.getD 0
      < (classifyMedian cs a.url (rifsMap a.url)).1) :
    classifyBackends rifsMap (a :: t) cs
      = ((classifyBackends rifsMap t
            (classifyMedian cs a.url (rifsMap a.url)).2).1,
          a :: (classifyBackends rifsMap t
            (classifyMedian cs a.url (rifsMap a.url)).2).2.1,
          (classifyBackends rifsMap t
            (classifyMedian cs a.url (rifsMap a.url)).2).2.2) := by
  simp [classifyBackends, hne, hge]

/-- Under a coherent median cache the classifier is the true-median
rule: cold exactly when the window is empty or the last RIF is
strictly below `median(rifs)`. -/
theorem mem_classify_cold_coherent (rifsMap : String → List ℚ)
    (l : List Backend) (cs : ChooserCache)
    (hco : cacheCoherent cs rifsMap) (b : Backend) :
    b ∈ (classifyBackends rifsMap l cs).1 ↔
      b ∈ l ∧ isColdRifs (rifsMap b.url) = true := by
  induction l generalizing cs with
  | nil => simp [classifyBackends]
  | cons a t ih =>
    by_cases hemp : (rifsMap a.url).isEmpty = true
    · rw [classify_cons_empty rifsMap a t cs hemp]
      have hcold : isColdRifs (rifsMap a.url) = true := by
        rw [List.isEmpty_iff.mp hemp]
        rfl
      simp only [List.mem_cons]
      constructor
      · rintro (rfl | hb)
        · exact ⟨Or.inl rfl, hcold⟩
        · exact ⟨Or.inr ((ih cs hco).mp hb).1, ((ih cs hco).mp hb).2⟩
      · rintro ⟨rfl | hb, hc⟩
        · exact Or.inl rfl
        · exact Or.inr ((ih cs hco).mpr ⟨hb, hc⟩)
    · have hne : rifsMap a.url ≠ [] := fun h =>
        hemp (by simp [h])
      have hmed := classifyMedian_eq_of_coherent hco a.url
      have hco' := classifyMedian_coherent_update hco a.url
      by_cases hlt : (rifsMap a.url).getLast?.getD 0
          < (classifyMedian cs a.url (rifsMap a.url)).1
      · rw [classify_cons_cold rifsMap a t cs hemp hlt]
        have hcold : isColdRifs (rifsMap a.url) = true := by
          rw [isColdRifs_nonempty hne]
          rw [hmed] at hlt
          simpa using hlt
        simp only [List.mem_cons]
        constructor
        · rintro (rfl | hb)
          · exact ⟨Or.inl rfl, hcold⟩
          · exact ⟨Or.inr ((ih _ hco').mp hb).1, ((ih _ hco').mp hb).2⟩
        · rintro ⟨rfl | hb, hc⟩
          · exact Or.inl rfl
          · exact Or.inr ((ih _ hco').mpr ⟨hb, hc⟩)
      · rw [classify_cons_hot rifsMap a t cs hemp hlt]
        have hcold : isColdRifs (rifsMap a.url) = false := by
          rw [isColdRifs_nonempty hne]
          rw [hmed] at hlt
          simpa using hlt
        simp only [List.mem_cons]
        constructor
        · intro hb
          exact ⟨Or.inr ((ih _ hco').mp hb).1, ((ih _ hco').mp hb).2⟩
        · rintro ⟨rfl | hb, hc⟩
          · rw [hcold] at hc
            cases hc
          · exact (ih _ hco').mpr ⟨hb, hc⟩

/-- Whatever the cache state, both classification lists stay inside
the input list. -/
theorem classify_subset (rifsMap : String → List ℚ) (l : List Backend)
    (cs : ChooserCache) :
    (∀ b ∈ (classifyBackends rifsMap l cs).1, b ∈ l)
    ∧ (∀ b ∈ (classifyBackends rifsMap l cs).2.1, b ∈ l) := by
  induction l generalizing cs with
  | nil => simp [classifyBackends]
  | cons a t ih =>
    by_cases hemp : (rifsMap a.url).isEmpty = true
    · rw [classify_cons_empty rifsMap a t cs hemp]
      constructor
      · intro b hb
        rcases List.mem_cons.mp hb with rfl | hb'
        · exact List.mem_cons_self _ _
        · exact List.mem_cons_of_mem _ ((ih cs).1 b hb')
      · intro b hb
        exact List.mem_cons_of_mem _ ((ih cs).2 b hb)
    · by_cases hlt : (rifsMap a.url).getLast?.getD 0
          < (classifyMedian cs a.url (rifsMap a.url)).1
      · rw [classify_cons_cold rifsMap a t cs hemp hlt]
        constructor
        · intro b hb
          rcases List.mem_cons.mp hb with rfl | hb'
          · exact List.mem_cons_self _ _
          · exact List.mem_cons_of_mem _
              ((ih (classifyMedian cs a.url (rifsMap a.url)).2).1 b hb')
        · intro b hb
          exact List.mem_cons_of_mem _
            ((ih (classifyMedian cs a.url (rifsMap a.url)).2).2 b hb)
      · rw [classify_cons_hot rifsMap a t cs hemp hlt]
        constructor
        · intro b hb
          exact List.mem_cons_of_mem _
            ((ih (classifyMedian cs a.url (rifsMap a.url)).2).1 b hb)
        · intro b hb
          rcases List.mem_cons.mp hb with rfl | hb'
          · exact List.mem_cons_self _ _
          · exact List.mem_cons_of_mem _
              ((ih (classifyMedian cs a.url (rifsMap a.url)).2).2 b hb')

/-- The two classification lists cannot both be empty on non-empty
input: the head lands in one of them. -/
theorem classify_ne_nil (rifsMap : String → List ℚ) (a : Backend)
    (t : List Backend) (cs : ChooserCache) :
    (classifyBackends rifsMap (a :: t) cs).1 ≠ [] ∨
      (classifyBackends rifsMap (a :: t) cs).2.1 ≠ [] := by
  by_cases hemp : (rifsMap a.url).isEmpty = true
  · exact Or.inl (by rw [classify_cons_empty rifsMap a t cs hemp]; simp)
  · by_cases hlt : (rifsMap a.url).getLast?.getD 0
        < (classifyMedian cs a.url (rifsMap a.url)).1
    · exact Or.inl
        (by rw [classify_cons_cold rifsMap a t cs hemp hlt]; simp)
    · exact Or.inr
        (by rw [classify_cons_hot rifsMap a t cs hemp hlt]; simp)

/-- `selectColdCandidates` is the filter of the cold list by
attainment of the minimal resolved latency. -/
theorem selectColdCandidates_eq (cacheFresh : String → Bool)
    (cacheVal poolLat : String → Option ℚ) (cold : List Backend) :
    selectColdCandidates cacheFresh cacheVal poolLat cold
      = cold.filter (fun b =>
          decide (coldLatency cacheFresh cacheVal poolLat b.url
            = listMinE
              (cold.map (fun c => coldLatency cacheFresh cacheVal poolLat c.url)))) :=
  zip_filter_eq_filter _ _ _

/-- `selectHotCandidates` is the filter of the hot list by attainment
of the minimal coerced current RIF. -/
theorem selectHotCandidates_eq (rifsMap : String → List ℚ)
    (hot : List Backend) :
    selectHotCandidates rifsMap hot
      = hot.filter (fun b =>
          decide (pyLastOrInf (rifsMap b.url)
            = listMinE (hot.map (fun c => pyLastOrInf (rifsMap c.url))))) :=
  zip_filter_eq_filter _ _ _

/-- With no fresh cache entry, the resolved cold latency is the pool
latency under the Python `or float("inf")` coercion. -/
theorem coldLatency_nocache (cacheVal poolLat : String → Option ℚ)
    (u : String) :
    coldLatency (fun _ => false) cacheVal poolLat u = pyOrInf (poolLat u) := by
  simp [coldLatency]

/-! ## In-memory backend registry (`core/backend_registry.py`) -/

/-- `BackendRegistry` state: the URL-keyed `_backends` dict in
insertion order, the `_last_heartbeat` dict, and the configured
`heartbeat_timeout` (`None` when unset). -/
structure MemRegistry where
  backends : List (String × Backend)
  heartbeats : String → Option ℚ
  heartbeatTimeout : Option ℚ
deriving Nonempty

/-- `BackendRegistry.register(backend)`: store the incoming record
under its URL (`self._backends[backend.url] = backend`, replacing any
previous record wholesale) and stamp the heartbeat with the current
time. -/
def memRegister (st : MemRegistry) (b : Backend) (now : ℚ) : MemRegistry :=
  { st with
    backends := aset st.backends b.url b
    heartbeats := fun u => if u = b.url then some now else st.heartbeats u }

/-- `self.heartbeat_timeout or 10`: `None` and `0` (falsy) both give
the 10-second default. -/
def effectiveTimeout (t : Option ℚ) : ℚ :=
  match t with
  | none => 10
  | some x => if x = 0 then 10 else x

/-- `BackendRegistry.list_backends()`: records whose heartbeat
(`self._last_heartbeat.get(url, 0)`) is strictly older than the
timeout get `health = False` written back; returns the new state and
the reported list. -/
def memListBackends (st : MemRegistry) (now : ℚ) :
    MemRegistry × List Backend :=
  let timeout := effectiveTimeout st.heartbeatTimeout
  let newBackends := st.backends.map (fun p =>
    if timeout < ratSub now ((st.heartbeats p.1).getD 0) then
      (p.1, { p.2 with health := false })
    else p)
  ({ st with backends := newBackends }, newBackends.map (fun p => p.2))

/-- `BackendRegistry.mark_backend_unhealthy(url)`: clear the health
flag when the URL is known; report whether it was. -/
def memMarkUnhealthy (st : MemRegistry) (url : String) : MemRegistry × Bool :=
  match alookup st.backends url with
  | some _ =>
    ({ st with backends := st.backends.map (fun p =>
        if p.1 = url then (p.1, { p.2 with health := false }) else p) }, true)
  | none => (st, false)

/-- `BackendRegistry.is_backend_healthy(url)`: the stored health flag,
false for unknown URLs. -/
def memIsHealthy (st : MemRegistry) (url : String) : Bool :=
  match alookup st.backends url with
  | some b => b.health
  | none => false

/-! ## Redis-backed registry (`core/redis_backend_registry.py`) -/

/-- The key-value view of the Redis store the register transaction
touches: the `backend:{url}` records and the `heartbeat:{url}`
timestamps. -/
structure RedisStore where
  backends : String → Option Backend
  heartbeats : String → Option ℚ
deriving Nonempty

/-- `RedisBackendRegistry.register(backend)` (the committed
transaction): when a record already exists under the URL, the incoming
record's `in_flight_requests`, `rif_avg_latency` and
`overall_avg_latency` are overwritten with the stored ones before the
write (so stored metrics survive and the incoming `health` flag is
adopted); the heartbeat key is set to the current time.  Key TTLs are
not part of the state model. -/
def redisRegister (st : RedisStore) (b : Backend) (now : ℚ) : RedisStore :=
  let toStore :=
    match st.backends b.url with
    | some old =>
      { b with
        in_flight_requests := old.in_flight_requests
        rif_avg_latency := old.rif_avg_latency
        overall_avg_latency := old.overall_avg_latency }
    | none => b
  { backends := fun u => if u = b.url then some toStore else st.backends u
    heartbeats := fun u => if u = b.url then some now else st.heartbeats u }

/-! ## Probe manager failure tracking (`core/probe_manager.py`) -/

/-- The failure-tracking state of `ProbeManager`: the per-URL
`_consecutive_failures` dict (`get(url, 0)` reads) and the log of
`registry.mark_backend_unhealthy` invocations.  The registry is
attached (`self.registry` truthy). -/
structure PMState where
  failures : String → Nat
  marked : List String

/-- A successful probe: `self._consecutive_failures.pop(backend_url,
None)`, so the counter reads 0 afterwards. -/
def probeSuccess (st : PMState) (u : String) : PMState :=
  { st with failures := fun v => if v = u then 0 else st.failures v }

/-- `_handle_probe_failure(backend_url)`: increment the counter and,
when it reaches the threshold (`failure_count >= threshold`), invoke
`mark_backend_unhealthy`. -/
def probeFailure (threshold : Nat) (st : PMState) (u : String) : PMState :=
  let n := st.failures u + 1
  { failures := fun v => if v = u then n else st.failures v
    marked := if threshold ≤ n then u :: st.marked else st.marked }

/-! ## Proxy forwarder gate (`core/proxy_handler.py`) -/

/-- What `handle_proxy` does before any upstream I/O: return an error
response or proceed to the upstream call. -/
inductive GateOutcome where
  | reject : Nat → String → GateOutcome
  | callUpstream : String → GateOutcome
deriving DecidableEq, Repr

/-- The pre-flight portion of `handle_proxy(request, path,
backend_url)`: `if not backend_url` (a `None` or empty URL) returns
503 "No backend servers registered."; otherwise, with a registry
attached, an unhealthy gate answer returns 503 "Backend temporarily
unavailable." without contacting the backend; only otherwise is the
upstream request issued. -/
def handleProxyGate (backendUrl : Option String) (hasRegistry : Bool)
    (isHealthy : String → Bool) : GateOutcome :=
  match backendUrl with
  | none => .reject 503 "No backend servers registered."
  | some u =>
    if u = "" then .reject 503 "No backend servers registered."
    else if hasRegistry && !isHealthy u then
      .reject 503 "Backend temporarily unavailable."
    else .callUpstream u

/-! ## Backend-side metrics manager (`core/metrics_manager.py`) -/

/-- `MetricsManager.__init__`: `sorted(set(rif_bins))` when a
non-empty bin list is configured, `None` otherwise. -/
def mkRifBins (l : List ℤ) : Option (List ℤ) :=
  if l.isEmpty then none else some (l.dedup.insertionSort (· ≤ ·))

/-- `MetricsManager._get_rif_key(rif)`: without bins the exact RIF;
with bins, `bisect_left` finds the first upper bound `≥ rif`, and a
RIF above every bound clamps to the largest bin. -/
def getRifKey (bins : Option (List ℤ)) (rif : ℤ) : ℤ :=
  match bins with
  | none => rif
  | some bs =>
    match bs.find? (fun b => rif ≤ b) with
    | some b => b
    | none => (bs.getLast?).getD rif

/-- The `finally` block of `prometheus_middleware`: append the elapsed
latency to `self._rif_latencies[key]` (a cap-1000 deque) where `key =
self._get_rif_key(rif_at_start)`. -/
def recordLatency (m : ℤ → List ℚ) (bins : Option (List ℤ)) (rifAtStart : ℤ)
    (elapsed : ℚ) : ℤ → List ℚ :=
  fun k =>
    if k = getRifKey bins rifAtStart then dequeAppend 1000 (m k) elapsed
    else m k

/-! ## Claim-level theorems -/

/-- Concrete two-backend fixtures used by the claim instances. -/
def bkA : Backend := { url := "http://a", health := true }

def bkB : Backend := { url := "http://b", health := true }

/-- `probeUpdate` never touches the `current_rif` field. -/
theorem probeUpdate_currentRif (lat rif now : ℚ) (e : PoolEntry) :
    (probeUpdate lat rif now e).currentRif = e.currentRif := rfl

/-- Every entry of a pool reachable from a zero-`current_rif` pool by
`add_probe` calls still stores `current_rif = 0`. -/
theorem runProbes_currentRif_zero (ops : List (String × ℚ × ℚ × ℚ))
    (st : PoolState) (h : ∀ p ∈ st, p.2.currentRif = 0) :
    ∀ p ∈ runProbes ops st, p.2.currentRif = 0 := by
  induction ops generalizing st with
  | nil => simpa [runProbes] using h
  | cons op rest ih =>
    have hstep : ∀ (u : String) (l r t : ℚ), ∀ p ∈ addProbe st u l r t,
        p.2.currentRif = 0 := by
      intro u l r t p hp
      rw [addProbe] at hp
      simp only at hp
      obtain ⟨q, hq, rfl⟩ := List.mem_map.mp hp
      have hq0 : q.2.currentRif = 0 := by
        by_cases hnone : (alookup st u).isNone = true
        · rw [if_pos hnone] at hq
          rcases List.mem_append.mp hq with hq' | hq'
          · by_cases hl : maxBackends ≤ st.length
            · rw [if_pos hl] at hq'
              exact h q (List.mem_of_mem_drop hq')
            · rw [if_neg hl] at hq'
              exact h q hq'
          · have : q = (u, freshEntry t) := by simpa using hq'
            rw [this]
            rfl
        · rw [if_neg hnone] at hq
          exact h q hq
      by_cases hqq : q.1 = u
      · simp [hqq, probeUpdate_currentRif, hq0]
      · simp [hqq, hq0]
    have : runProbes (op :: rest) st
        = runProbes rest (addProbe st op.1 op.2.1 op.2.2.1 op.2.2.2) := by
      rw [runProbes, List.foldl_cons]
      rfl
    rw [this]
    exact ih _ (hstep _ _ _ _)

/-- C10: after any sequence of `add_probe` calls starting from the
empty pool, `get_current_rifs` answers `0.0` for every tracked URL and
`None` for every untracked URL — `add_probe` initializes
`current_rif` to `0.0` and never updates it, so the batch RIF read
path never reflects a probed RIF value. -/
theorem C10_current_rifs_constant (ops : List (String × ℚ × ℚ × ℚ))
    (ids : List String) :
    getCurrentRifs (runProbes ops emptyPool) ids
      = ids.map (fun bid =>
          if (alookup (runProbes ops emptyPool) bid).isSome then some (0 : ℚ)
          else none) := by
  have hz : ∀ p ∈ runProbes ops emptyPool, p.2.currentRif = 0 :=
    runProbes_currentRif_zero ops emptyPool (by intro p hp; cases hp)
  rw [getCurrentRifs]
  apply List.map_congr_left
  intro bid _
  cases hb : alookup (runProbes ops emptyPool) bid with
  | none => simp [hb]
  | some e =>
    have he : e.currentRif = 0 := by
      rw [alookup] at hb
      cases hf : (runProbes ops emptyPool).find? (fun p => p.1 = bid) with
      | none => rw [hf] at hb; cases hb
      | some pr =>
        rw [hf] at hb
        have hmem := List.mem_of_find?_eq_some hf
        have : pr.2 = e := by simpa using hb
        rw [← this]
        exact hz pr hmem
    simp [hb, he]

/-- RIF windows under which `staleCache` carries a stale median
(`[1, 5, 9]`: true median `5`, cached median `10` under the matching
key `(3, 9)`). -/
def rifsStale : String → List ℚ := fun u =>
  if u = "http://a" then [1, 5, 9] else []

/-- A reachable stale median-cache entry for `http://a`: the stored
key `(3, 9)` matches the current window `[1, 5, 9]` but the cached
median `10` is not the window median `5` (the `(len, last)` key does
not capture every window change: a full 1000-deque shifted by a probe
repeating the last RIF, or pool eviction followed by rebuild,
preserves the key while moving the median). -/
def staleCache : ChooserCache :=
  { rifLastInfo := fun u => if u = "http://a" then some (3, 9) else none
    rifMedianCache := fun u => if u = "http://a" then some 10 else none }

/-- C1 (amended): the probe pool stores `"hot"` exactly when the
just-probed RIF (the last element of the post-append window) strictly
exceeds the window median — so a backend whose last RIF equals the
median is stored `"cold"`.  The chooser classifies cold exactly when
the RIF window is empty or the last RIF is strictly below the median
value it uses; whenever its `(len, last)`-keyed median cache is
coherent with the current windows (in particular from the empty cache
of a fresh balancer) that value is the true window median, so the
classification is "cold iff empty window or last RIF < median(rifs)"
(equality lands `"hot"` there, so pool and chooser genuinely disagree
on the equality case); under a stale cache entry the chooser can
classify against a stale median instead, as the final conjunct
exhibits. -/
theorem C1_temperature_rule :
    (∀ (st : PoolState) (url : String) (lat rif now : ℚ),
      ∃ e, alookup (addProbe st url lat rif now) url = some e
        ∧ e.rifs.getLast? = some rif
        ∧ (e.temperature = some Temp.hot ↔ pymedian e.rifs < rif)
        ∧ (e.temperature = some Temp.cold ↔ ¬ pymedian e.rifs < rif))
    ∧ (∀ (backends : List Backend) (rifsMap : String → List ℚ)
        (cs : ChooserCache), cacheCoherent cs rifsMap → ∀ b ∈ backends,
        (b ∈ (classifyBackends rifsMap backends cs).1 ↔
          (rifsMap b.url = [] ∨
            ∃ r, (rifsMap b.url).getLast? = some r
              ∧ r < pymedian (rifsMap b.url))))
    ∧ (bkA ∈ (classifyBackends rifsStale [bkA] staleCache).1
        ∧ isColdRifs (rifsStale bkA.url) = false) := by
  refine ⟨?_, ?_, by decide, by decide⟩
  · intro st url lat rif now
    refine ⟨probeUpdate lat rif now ((alookup st url).getD (freshEntry now)),
      lookup_addProbe_self st url lat rif now, ?_, ?_, ?_⟩
    · exact dequeAppend_getLast (by norm_num) _ _
    · by_cases h : pymedian (probeUpdate lat rif now
          ((alookup st url).getD (freshEntry now))).rifs < rif
      · refine ⟨fun _ => h, fun _ => ?_⟩
        simp only [probeUpdate] at h ⊢
        simp [if_pos h]
      · constructor
        · intro htemp
          exact absurd htemp (by
            simp only [probeUpdate] at h ⊢
            simp [if_neg h])
        · intro hlt
          exact absurd hlt h
    · by_cases h : pymedian (probeUpdate lat rif now
          ((alookup st url).getD (freshEntry now))).rifs < rif
      · constructor
        · intro htemp _
          have : (probeUpdate lat rif now
              ((alookup st url).getD (freshEntry now))).temperature
              = some Temp.hot := by
            simp only [probeUpdate] at h ⊢
            simp [if_pos h]
          rw [this] at htemp
          cases htemp
        · intro hn
          exact absurd h hn
      · refine ⟨fun _ => h, fun _ => ?_⟩
        simp only [probeUpdate] at h ⊢
        simp [if_neg h]
  · intro backends rifsMap cs hco b hb
    rw [mem_classify_cold_coherent rifsMap backends cs hco]
    rw [isColdRifs_iff]
    exact ⟨fun h => h.2, fun h => ⟨hb, h⟩⟩

/-- C1 witness: one concrete chooser classification obtained from the
amended theorem at the empty (hence coherent) cache (window `[2, 1]`:
last `1` below median `3/2`, hence cold). -/
theorem C1_witness :
    bkA ∈ (classifyBackends (fun _ => [2, 1]) [bkA] emptyCache).1 := by
  refine (C1_temperature_rule.2.1 [bkA] (fun _ => [2, 1]) emptyCache
    (emptyCache_coherent _) bkA (by simp)).mpr ?_
  right
  exact ⟨1, by decide, by decide⟩

/-- C1 counterexample: one probe with RIF `1` leaves a window `[1]`
whose last value equals the median, and the pool stores `"cold"`,
while the claim (cold iff no samples or last strictly below median)
demands `"hot"` there. -/
theorem C1_counterexample :
    ((alookup (addProbe emptyPool "u" (mkRat 1 10) 1 0) "u").map
        PoolEntry.temperature = some (some Temp.cold))
    ∧ ((alookup (addProbe emptyPool "u" (mkRat 1 10) 1 0) "u").map
        PoolEntry.rifs = some [1])
    ∧ ¬(([1] : List ℚ) = []
        ∨ ∃ r, ([1] : List ℚ).getLast? = some r ∧ r < pymedian [1]) := by
  refine ⟨by decide, by decide, ?_⟩
  rintro (h | ⟨r, hr, hlt⟩)
  · cases h
  · have h1 : (1 : ℚ) = r := by simpa using hr
    rw [← h1] at hlt
    have hm : pymedian [1] = 1 := by decide
    rw [hm] at hlt
    exact lt_irrefl 1 hlt

/-- Current latency as the claim reads it: only a missing sample maps
to `float("inf")` (the code additionally coerces an exact `0.0`). -/
def claimLatency (o : Option ℚ) : ExtQ := o.elim ExtQ.inf ExtQ.val

/-- Pool latencies of scenario S2: `0.1` for `a`, `0.05` for `b`. -/
def latS2 : String → Option ℚ := fun u =>
  if u = "http://a" then some (mkRat 1 10)
  else if u = "http://b" then some (mkRat 1 20) else none

/-- Pool latencies with an exact zero for `a`. -/
def latZero : String → Option ℚ := fun u =>
  if u = "http://a" then some 0
  else if u = "http://b" then some (mkRat 1 20) else none

/-- C2 (amended): with a non-empty cold partition the chooser returns
a cold backend minimizing the per-backend resolved latency, where the
resolved latency of a backend is its cached latency when its
latency-cache entry is fresh (a cached `0.0` is used as-is) and
otherwise the freshly fetched pool latency with a missing sample and
an exact `0.0` both coerced to `+∞` (the `or float("inf")` merge
applies only to fetched values); ties are broken uniformly at random
over the returned candidate list.  In particular, when no cold
backend has a fresh cache entry — the first selection, or any
selection more than the 5 ms cache timeout after the last — the
resolved latency is exactly that coercion of the pool latency.  In
the S2 instance (`0.1` vs `0.05`, both cold, no fresh cache) the
choice is `http://b`. -/
theorem C2_cold_selection :
    (∀ (cacheFresh : String → Bool) (cacheVal poolLat : String → Option ℚ)
        (cold : List Backend), cold ≠ [] →
      selectColdCandidates cacheFresh cacheVal poolLat cold ≠ []
      ∧ ∀ b ∈ selectColdCandidates cacheFresh cacheVal poolLat cold,
          b ∈ cold ∧ ∀ c ∈ cold,
            (coldLatency cacheFresh cacheVal poolLat b.url).le
              (coldLatency cacheFresh cacheVal poolLat c.url) = true)
    ∧ (∀ (poolLat : String → Option ℚ) (cold : List Backend), cold ≠ [] →
      selectColdCandidates (fun _ => false) (fun _ => none) poolLat cold ≠ []
      ∧ ∀ b ∈ selectColdCandidates (fun _ => false) (fun _ => none) poolLat
          cold,
          b ∈ cold ∧ ∀ c ∈ cold,
            (pyOrInf (poolLat b.url)).le (pyOrInf (poolLat c.url)) = true)
    ∧ getNextBackendCandidates [bkA, bkB] (fun _ => []) emptyCache
        (fun _ => false) (fun _ => none) latS2 = ["http://b"] := by
  refine ⟨?_, ?_, by decide⟩
  · intro cacheFresh cacheVal poolLat cold hne
    rw [selectColdCandidates_eq]
    exact filter_argmin_spec
      (fun b : Backend => coldLatency cacheFresh cacheVal poolLat b.url)
      cold hne
  · intro poolLat cold hne
    have hrw : selectColdCandidates (fun _ => false) (fun _ => none) poolLat
        cold
        = cold.filter (fun b => decide (pyOrInf (poolLat b.url)
            = listMinE (cold.map (fun c => pyOrInf (poolLat c.url))))) := by
      rw [selectColdCandidates_eq]
      simp only [coldLatency_nocache]
    obtain ⟨hne', hmem⟩ :=
      filter_argmin_spec (fun b : Backend => pyOrInf (poolLat b.url)) cold hne
    rw [hrw]
    exact ⟨hne', hmem⟩

/-- C2 witness: the amended theorem's no-fresh-cache conjunct applied
to the S2 cold set. -/
theorem C2_witness :
    selectColdCandidates (fun _ => false) (fun _ => none) latS2 [bkA, bkB]
      ≠ [] :=
  (C2_cold_selection.2.1 latS2 [bkA, bkB] (by decide)).1

/-- C2 counterexample: with both backends cold and current latencies
`0.0` (for `a`) and `0.05` (for `b`), the code returns `http://b`,
although under the claim's reading (`+∞` only for a missing sample)
`a` has the strictly smaller current latency. -/
theorem C2_counterexample :
    (classifyBackends (fun _ => []) ([bkA, bkB].filter (fun b => b.health))
        emptyCache).1 = [bkA, bkB]
    ∧ getNextBackendCandidates [bkA, bkB] (fun _ => []) emptyCache
        (fun _ => false) (fun _ => none) latZero = ["http://b"]
    ∧ (claimLatency (latZero "http://a")).lt
        (claimLatency (latZero "http://b")) = true := by
  refine ⟨by decide, by decide, by decide⟩

/-- RIF windows of scenario S3. -/
def rifsS3 : String → List ℚ := fun u =>
  if u = "http://a" then [1, 2, 3, 4]
  else if u = "http://b" then [1, 2, 3, 5] else []

/-- RIF windows with a most-recent value of `0` for `a`. -/
def rifsZero : String → List ℚ := fun u =>
  if u = "http://a" then [0] else if u = "http://b" then [3] else []

/-- C3 (amended): with an empty cold partition and a non-empty hot
partition the chooser returns a hot backend minimizing the coerced
current RIF, where a missing window and a most-recent RIF of exactly
`0.0` both coerce to `+∞`; ties are broken uniformly at random over
the returned candidate list.  In the S3 instance
(`[1,2,3,4]` vs `[1,2,3,5]`, both hot) the choice is `http://a`. -/
theorem C3_hot_selection :
    (∀ (rifsMap : String → List ℚ) (cacheFresh : String → Bool)
        (cacheVal poolLat : String → Option ℚ) (hot : List Backend),
      hot ≠ [] →
      selectBackendCandidates cacheFresh cacheVal poolLat rifsMap [] hot ≠ []
      ∧ ∀ b ∈ selectBackendCandidates cacheFresh cacheVal poolLat rifsMap []
          hot,
          b ∈ hot ∧ ∀ c ∈ hot,
            (pyLastOrInf (rifsMap b.url)).le (pyLastOrInf (rifsMap c.url))
              = true)
    ∧ getNextBackendCandidates [bkA, bkB] rifsS3 emptyCache
        (fun _ => false) (fun _ => none) (fun _ => none) = ["http://a"] := by
  constructor
  · intro rifsMap cacheFresh cacheVal poolLat hot hne
    have hsel : selectBackendCandidates cacheFresh cacheVal poolLat rifsMap []
        hot = selectHotCandidates rifsMap hot := by
      rw [selectBackendCandidates]
      simp
    rw [hsel, selectHotCandidates_eq]
    exact filter_argmin_spec (fun b : Backend => pyLastOrInf (rifsMap b.url))
      hot hne
  · decide

/-- C3 witness: the amended theorem applied to the S3 hot set. -/
theorem C3_witness :
    selectBackendCandidates (fun _ => false) (fun _ => none) (fun _ => none)
      rifsS3 [] [bkA, bkB] ≠ [] :=
  (C3_hot_selection.1 rifsS3 (fun _ => false) (fun _ => none) (fun _ => none)
    [bkA, bkB] (by decide)).1

/-- C3 counterexample: with both backends hot, `a` carrying a current
RIF of `0` and `b` a current RIF of `3`, the code returns `http://b`,
although `a` has the strictly smaller current RIF. -/
theorem C3_counterexample :
    (classifyBackends rifsZero ([bkA, bkB].filter (fun b => b.health))
        emptyCache).1 = []
    ∧ (classifyBackends rifsZero ([bkA, bkB].filter (fun b => b.health))
        emptyCache).2.1 = [bkA, bkB]
    ∧ getNextBackendCandidates [bkA, bkB] rifsZero emptyCache
        (fun _ => false) (fun _ => none) (fun _ => none) = ["http://b"]
    ∧ (rifsZero "http://a").getLast? = some 0
    ∧ (rifsZero "http://b").getLast? = some 3
    ∧ ((0 : ℚ) < 3) := by
  refine ⟨by decide, by decide, by decide, by decide, by decide, by decide⟩

/-- C5: whenever the circuit-breaker gate is consulted (a non-empty
backend URL with a registry attached) and reports unhealthy, the
forwarder answers 503 "Backend temporarily unavailable." and never
reaches the upstream call. -/
theorem C5_gate_rejects_unhealthy (u : String) (isHealthy : String → Bool)
    (hu : u ≠ "") (hh : isHealthy u = false) :
    handleProxyGate (some u) true isHealthy
      = GateOutcome.reject 503 "Backend temporarily unavailable."
    ∧ ∀ v, handleProxyGate (some u) true isHealthy
        ≠ GateOutcome.callUpstream v := by
  have hg : handleProxyGate (some u) true isHealthy
      = GateOutcome.reject 503 "Backend temporarily unavailable." := by
    rw [handleProxyGate]
    rw [if_neg hu]
    simp [hh]
  exact ⟨hg, fun v hv => by rw [hg] at hv; cases hv⟩

/-- C5 witness: the gate theorem at a concrete unhealthy URL. -/
theorem C5_witness :
    handleProxyGate (some "http://c") true (fun _ => false)
      = GateOutcome.reject 503 "Backend temporarily unavailable."
    ∧ ∀ v, handleProxyGate (some "http://c") true (fun _ => false)
        ≠ GateOutcome.callUpstream v :=
  C5_gate_rejects_unhealthy "http://c" (fun _ => false) (by decide) rfl

/-- C6: the probe-side failure counter is zeroed by one successful
probe, incremented by one on each failed probe, and
`mark_unhealthy(url)` is invoked when the counter reaches the
threshold; in particular three consecutive failures at threshold 3
(from any state, via a preceding success) leave the URL marked. -/
theorem C6_failure_counter (st : PMState) (u : String) (threshold : Nat) :
    (probeSuccess st u).failures u = 0
    ∧ (probeFailure threshold st u).failures u = st.failures u + 1
    ∧ (threshold ≤ st.failures u + 1 →
        u ∈ (probeFailure threshold st u).marked)
    ∧ u ∈ (probeFailure 3 (probeFailure 3 (probeFailure 3 (probeSuccess st u)
        u) u) u).marked := by
  refine ⟨by simp [probeSuccess], by simp [probeFailure], ?_, ?_⟩
  · intro hth
    simp [probeFailure, hth]
  · simp [probeFailure, probeSuccess]

/-- C6 witness: the counter theorem at a concrete state, with the
threshold-reached hypothesis discharged. -/
theorem C6_witness :
    ((3:Nat) ≤ (fun _ => (2:Nat)) "http://c" + 1)
    ∧ "http://c" ∈ (probeFailure 3 { failures := fun _ => 2, marked := [] }
        "http://c").marked :=
  ⟨by norm_num,
    (C6_failure_counter { failures := fun _ => 2, marked := [] } "http://c"
      3).2.2.1 (by norm_num)⟩

/-- Previously stored record for `http://a` (metrics observed so
far). -/
def oldA : Backend :=
  { url := "http://a", health := false, in_flight_requests := 5,
    rif_avg_latency := 2, overall_avg_latency := 3 }

/-- Fresh heartbeat registration for `http://a`. -/
def newA : Backend := { url := "http://a", health := true }

/-- A registry state already holding `oldA`. -/
def regC4 : MemRegistry :=
  { backends := [("http://a", oldA)], heartbeats := fun _ => some 0,
    heartbeatTimeout := none }

/-- A Redis store state already holding `oldA`. -/
def rstoreC4 : RedisStore :=
  { backends := fun u => if u = "http://a" then some oldA else none,
    heartbeats := fun _ => none }

/-- C4 (amended): re-registration preserves the stored metric fields
only in the Redis-backed registry, which copies
`in_flight_requests` / `rif_avg_latency` / `overall_avg_latency` from
the stored record while adopting the incoming healthy flag and
refreshing the heartbeat; the in-memory registry instead replaces the
stored record wholesale with the incoming one (so it adopts the
incoming healthy flag and heartbeat but also the incoming metric
values).  Either way all other URLs are untouched. -/
theorem C4_register_semantics :
    (∀ (st : RedisStore) (b : Backend) (now : ℚ) (old : Backend),
      st.backends b.url = some old →
        ∃ r, (redisRegister st b now).backends b.url = some r
          ∧ r.in_flight_requests = old.in_flight_requests
          ∧ r.rif_avg_latency = old.rif_avg_latency
          ∧ r.overall_avg_latency = old.overall_avg_latency
          ∧ r.health = b.health ∧ r.url = b.url
          ∧ (redisRegister st b now).heartbeats b.url = some now
          ∧ ∀ v, v ≠ b.url →
              (redisRegister st b now).backends v = st.backends v
              ∧ (redisRegister st b now).heartbeats v = st.heartbeats v)
    ∧ (∀ (st : MemRegistry) (b : Backend) (now : ℚ),
        alookup (memRegister st b now).backends b.url = some b
        ∧ (memRegister st b now).heartbeats b.url = some now
        ∧ ∀ v, v ≠ b.url →
            alookup (memRegister st b now).backends v = alookup st.backends v
            ∧ (memRegister st b now).heartbeats v = st.heartbeats v) := by
  constructor
  · intro st b now old h
    refine ⟨{ b with
        in_flight_requests := old.in_flight_requests
        rif_avg_latency := old.rif_avg_latency
        overall_avg_latency := old.overall_avg_latency },
      ?_, rfl, rfl, rfl, rfl, rfl, ?_, ?_⟩
    · simp [redisRegister, h]
    · simp [redisRegister]
    · intro v hv
      constructor
      · simp [redisRegister, hv]
      · simp [redisRegister, hv]
  · intro st b now
    refine ⟨?_, ?_, ?_⟩
    · exact alookup_aset_self st.backends b.url b
    · simp [memRegister]
    · intro v hv
      exact ⟨alookup_aset_ne st.backends hv b, by simp [memRegister, hv]⟩

/-- C4 witness: the Redis branch applied to a stored record with
`in_flight_requests = 5` and an incoming healthy registration. -/
theorem C4_register_witness :
    ∃ r, (redisRegister rstoreC4 newA 1).backends newA.url = some r
      ∧ r.in_flight_requests = oldA.in_flight_requests
      ∧ r.health = newA.health := by
  obtain ⟨r, h1, h2, h3, h4, h5, h6, h7, h8⟩ :=
    C4_register_semantics.1 rstoreC4 newA 1 oldA (by decide)
  exact ⟨r, h1, h2, h5⟩

/-- C4 counterexample: the in-memory registry overwrites the stored
record, so the prior `in_flight_requests = 5` is replaced by the
incoming `0` instead of being preserved (its own test suite expects
exactly this replacement). -/
theorem C4_counterexample :
    (alookup (memRegister regC4 newA 1).backends "http://a").map
        Backend.in_flight_requests = some 0
    ∧ oldA.in_flight_requests = 5 := by
  refine ⟨by decide, rfl⟩

/-- Both reported effects of an expired heartbeat in
`list_backends`: the stored record is mutated and the reported list
carries the cleared health flag. -/
theorem memListBackends_expired (st : MemRegistry) (now : ℚ)
    (p : String × Backend) (hp : p ∈ st.backends)
    (hexp : effectiveTimeout st.heartbeatTimeout
      < ratSub now ((st.heartbeats p.1).getD 0)) :
    (p.1, { p.2 with health := false }) ∈ (memListBackends st now).1.backends
    ∧ { p.2 with health := false } ∈ (memListBackends st now).2 := by
  have hmap : (fun q : String × Backend =>
      if effectiveTimeout st.heartbeatTimeout
          < ratSub now ((st.heartbeats q.1).getD 0) then
        (q.1, { q.2 with health := false })
      else q) p = (p.1, { p.2 with health := false }) := if_pos hexp
  constructor
  · rw [memListBackends]
    simp only
    rw [← hmap]
    exact List.mem_map_of_mem _ hp
  · rw [memListBackends]
    simp only
    have h2 : { p.2 with health := false }
        = ((fun q : String × Backend =>
            if effectiveTimeout st.heartbeatTimeout
                < ratSub now ((st.heartbeats q.1).getD 0) then
              (q.1, { q.2 with health := false })
            else q) p).2 := by rw [hmap]
    rw [h2]
    exact List.mem_map_of_mem _ (List.mem_map_of_mem _ hp)

/-- C7: any stored record whose heartbeat is strictly older than the
effective timeout is reported unhealthy by `list_backends`, with the
mutation written back to the stored state; in particular a
registration followed by quiescence longer than the timeout is still
listed, but unhealthy. -/
theorem C7_heartbeat_timeout :
    (∀ (st : MemRegistry) (now : ℚ), ∀ p ∈ st.backends,
      effectiveTimeout st.heartbeatTimeout
          < ratSub now ((st.heartbeats p.1).getD 0) →
        (p.1, { p.2 with health := false })
            ∈ (memListBackends st now).1.backends
        ∧ { p.2 with health := false } ∈ (memListBackends st now).2)
    ∧ (∀ (st : MemRegistry) (b : Backend) (t0 t1 : ℚ),
        effectiveTimeout st.heartbeatTimeout < ratSub t1 t0 →
        ∃ r ∈ (memListBackends (memRegister st b t0) t1).2,
          r.url = b.url ∧ r.health = false) := by
  refine ⟨fun st now p hp hexp => memListBackends_expired st now p hp hexp,
    ?_⟩
  intro st b t0 t1 hexp
  have hmem : (b.url, b) ∈ (memRegister st b t0).backends :=
    mem_aset_self st.backends b.url b
  have hhb : ((memRegister st b t0).heartbeats b.url).getD 0 = t0 := by
    simp [memRegister]
  have hexp' : effectiveTimeout (memRegister st b t0).heartbeatTimeout
      < ratSub t1 (((memRegister st b t0).heartbeats (b.url, b).1).getD 0) := by
    rw [hhb]
    exact hexp
  obtain ⟨-, h2⟩ :=
    memListBackends_expired (memRegister st b t0) t1 (b.url, b) hmem hexp'
  exact ⟨{ b with health := false }, h2, rfl, rfl⟩

/-- An empty in-memory registry with the default timeout. -/
def emptyReg : MemRegistry :=
  { backends := [], heartbeats := fun _ => none, heartbeatTimeout := none }

/-- C7 witness: register at time 0, read at time 11 with the default
10-second timeout — the record is listed and unhealthy. -/
theorem C7_witness :
    ∃ r ∈ (memListBackends (memRegister emptyReg bkA 0) 11).2,
      r.url = bkA.url ∧ r.health = false :=
  C7_heartbeat_timeout.2 emptyReg bkA 0 11 (by decide)

/-- The selection fed by the classification of a non-empty healthy
list is non-empty and stays inside that list, for any median-cache
state. -/
theorem selectBackend_spec (cacheFresh : String → Bool)
    (cacheVal poolLat : String → Option ℚ) (rifsMap : String → List ℚ)
    (cs : ChooserCache) (healthy : List Backend) (hne : healthy ≠ []) :
    selectBackendCandidates cacheFresh cacheVal poolLat rifsMap
        (classifyBackends rifsMap healthy cs).1
        (classifyBackends rifsMap healthy cs).2.1 ≠ []
    ∧ ∀ b ∈ selectBackendCandidates cacheFresh cacheVal poolLat rifsMap
        (classifyBackends rifsMap healthy cs).1
        (classifyBackends rifsMap healthy cs).2.1, b ∈ healthy := by
  cases healthy with
  | nil => exact absurd rfl hne
  | cons a t =>
    by_cases hcold : (classifyBackends rifsMap (a :: t) cs).1 = []
    · have hhot : (classifyBackends rifsMap (a :: t) cs).2.1 ≠ [] := by
        rcases classify_ne_nil rifsMap a t cs with h | h
        · exact absurd hcold h
        · exact h
      have hsel : selectBackendCandidates cacheFresh cacheVal poolLat rifsMap
          (classifyBackends rifsMap (a :: t) cs).1
          (classifyBackends rifsMap (a :: t) cs).2.1
          = selectHotCandidates rifsMap
              (classifyBackends rifsMap (a :: t) cs).2.1 := by
        rw [selectBackendCandidates, hcold]
        simp
      rw [hsel, selectHotCandidates_eq]
      obtain ⟨h1, h2⟩ := filter_argmin_spec
        (fun b : Backend => pyLastOrInf (rifsMap b.url))
        (classifyBackends rifsMap (a :: t) cs).2.1 hhot
      exact ⟨h1, fun b hb =>
        (classify_subset rifsMap (a :: t) cs).2 b (h2 b hb).1⟩
    · have hsel : selectBackendCandidates cacheFresh cacheVal poolLat rifsMap
          (classifyBackends rifsMap (a :: t) cs).1
          (classifyBackends rifsMap (a :: t) cs).2.1
          = selectColdCandidates cacheFresh cacheVal poolLat
              (classifyBackends rifsMap (a :: t) cs).1 := by
        rw [selectBackendCandidates]
        simp [List.isEmpty_iff, hcold]
      rw [hsel, selectColdCandidates_eq]
      obtain ⟨h1, h2⟩ := filter_argmin_spec
        (fun b : Backend => coldLatency cacheFresh cacheVal poolLat b.url)
        (classifyBackends rifsMap (a :: t) cs).1 hcold
      exact ⟨h1, fun b hb =>
        (classify_subset rifsMap (a :: t) cs).1 b (h2 b hb).1⟩

/-- C8: `get_next_backend` returns no URL exactly when the healthy
set read from the registry is empty; any URL it can return belongs to
a healthy registered backend (whatever the median-cache state); and
the forwarder maps an empty chooser result (`backend_url = None`) to
a 503 response. -/
theorem C8_none_iff_no_healthy (backends : List Backend)
    (rifsMap : String → List ℚ) (cs : ChooserCache)
    (cacheFresh : String → Bool) (cacheVal poolLat : String → Option ℚ) :
    (getNextBackendCandidates backends rifsMap cs cacheFresh cacheVal poolLat
        = [] ↔ backends.filter (fun b => b.health) = [])
    ∧ (∀ u ∈ getNextBackendCandidates backends rifsMap cs cacheFresh cacheVal
        poolLat, ∃ b ∈ backends, b.health = true ∧ b.url = u)
    ∧ (∀ (hasRegistry : Bool) (isHealthy : String → Bool),
        handleProxyGate none hasRegistry isHealthy
          = GateOutcome.reject 503 "No backend servers registered.") := by
  refine ⟨?_, ?_, fun hasRegistry isHealthy => rfl⟩
  · cases hh : backends.filter (fun b => b.health) with
    | nil => simp [getNextBackendCandidates, hh]
    | cons a t =>
      simp only [getNextBackendCandidates, hh, List.isEmpty_cons,
        Bool.false_eq_true, if_false]
      constructor
      · intro hmap
        have hsel := (selectBackend_spec cacheFresh cacheVal poolLat rifsMap
          cs (a :: t) (by simp)).1
        rw [List.map_eq_nil_iff] at hmap
        exact absurd hmap hsel
      · intro h
        cases h
  · intro u hu
    rcases hh : backends.filter (fun b => b.health) with _ | ⟨a, t⟩
    · rw [getNextBackendCandidates] at hu
      simp only [hh] at hu
      cases hu
    · rw [getNextBackendCandidates] at hu
      simp only [hh, List.isEmpty_cons, Bool.false_eq_true, if_false] at hu
      obtain ⟨b, hb, rfl⟩ := List.mem_map.mp hu
      have hbh := (selectBackend_spec cacheFresh cacheVal poolLat rifsMap
        cs (a :: t) (by simp)).2 b hb
      rw [← hh] at hbh
      obtain ⟨hbb, hhb⟩ := List.mem_filter.mp hbh
      exact ⟨b, hbb, by simpa using hhb, rfl⟩

/-- C8 witness: a concrete chooser result is the URL of a healthy
registered backend. -/
theorem C8_witness :
    ∃ b ∈ [bkA, bkB], b.health = true ∧ b.url = "http://b" :=
  (C8_none_iff_no_healthy [bkA, bkB] (fun _ => []) emptyCache
    (fun _ => false) (fun _ => none) latS2).2.1 "http://b" (by decide)

/-- `find?` over a `≤`-sorted list returns the least element
satisfying a `rif ≤ ·` predicate. -/
theorem find?_min_of_sorted {bs : List ℤ} (hs : bs.Sorted (· ≤ ·))
    {rif b : ℤ} (h : bs.find? (fun x => decide (rif ≤ x)) = some b) :
    b ∈ bs ∧ rif ≤ b ∧ ∀ c ∈ bs, rif ≤ c → b ≤ c := by
  induction bs with
  | nil => cases h
  | cons a t ih =>
    obtain ⟨hat, hts⟩ := List.sorted_cons.mp hs
    by_cases hp : rif ≤ a
    · rw [List.find?_cons_of_pos _ (by simpa using hp)] at h
      have hba : b = a := (Option.some.inj h).symm
      subst hba
      refine ⟨List.mem_cons_self _ _, hp, ?_⟩
      intro c hc _
      rcases List.mem_cons.mp hc with rfl | hct
      · exact le_refl c
      · exact hat c hct
    · rw [List.find?_cons_of_neg _ (by simpa using hp)] at h
      obtain ⟨hmem, hrb, hmin⟩ := ih hts h
      refine ⟨List.mem_cons_of_mem _ hmem, hrb, ?_⟩
      intro c hc hrc
      rcases List.mem_cons.mp hc with rfl | hct
      · exact absurd hrc hp
      · exact hmin c hct hrc

/-- Every element of a `≤`-sorted non-empty list is bounded by its
last element. -/
theorem sorted_getLast_bound {bs : List ℤ} (hs : bs.Sorted (· ≤ ·))
    (hne : bs ≠ []) : ∃ lst, bs.getLast? = some lst ∧ ∀ x ∈ bs, x ≤ lst := by
  induction bs with
  | nil => exact absurd rfl hne
  | cons a t ih =>
    obtain ⟨hat, hts⟩ := List.sorted_cons.mp hs
    cases t with
    | nil => exact ⟨a, rfl, by simp⟩
    | cons c cs =>
      obtain ⟨lst, hl, hall⟩ := ih hts (by simp)
      refine ⟨lst, by rw [List.getLast?_cons_cons]; exact hl, ?_⟩
      intro x hx
      rcases List.mem_cons.mp hx with rfl | hxt
      · exact le_trans (hat c (List.mem_cons_self c cs))
          (hall c (List.mem_cons_self c cs))
      · exact hall x hxt

/-- C9: with no configured bins the recording key is the observed RIF
itself; with configured bins the key is the smallest bin upper-bound
at least the observed RIF, clamped to the largest bin when the RIF
exceeds all of them; and the middleware appends the latency exactly
under that key. -/
theorem C9_rif_binning :
    (∀ rif : ℤ, getRifKey (mkRifBins []) rif = rif)
    ∧ (∀ (raw : List ℤ) (rif : ℤ), raw ≠ [] →
        ∃ bs, mkRifBins raw = some bs
          ∧ getRifKey (mkRifBins raw) rif ∈ raw
          ∧ ((∃ b ∈ raw, rif ≤ b) →
              rif ≤ getRifKey (mkRifBins raw) rif
              ∧ ∀ b ∈ raw, rif ≤ b → getRifKey (mkRifBins raw) rif ≤ b)
          ∧ ((∀ b ∈ raw, b < rif) →
              ∀ b ∈ raw, b ≤ getRifKey (mkRifBins raw) rif))
    ∧ (∀ (m : ℤ → List ℚ) (bins : Option (List ℤ)) (rif : ℤ) (elapsed : ℚ),
        recordLatency m bins rif elapsed (getRifKey bins rif)
          = dequeAppend 1000 (m (getRifKey bins rif)) elapsed
        ∧ ∀ k, k ≠ getRifKey bins rif →
            recordLatency m bins rif elapsed k = m k) := by
  refine ⟨fun rif => rfl, ?_, ?_⟩
  · intro raw rif hraw
    have hbins : mkRifBins raw
        = some (raw.dedup.insertionSort (· ≤ ·)) := by
      rw [mkRifBins, if_neg (by simpa [List.isEmpty_iff] using hraw)]
    have hs : (raw.dedup.insertionSort (· ≤ ·)).Sorted (· ≤ ·) :=
      List.sorted_insertionSort _ _
    have hmemiff : ∀ x : ℤ,
        x ∈ raw.dedup.insertionSort (· ≤ ·) ↔ x ∈ raw := fun x =>
      ((List.perm_insertionSort _ _).mem_iff).trans List.mem_dedup
    refine ⟨raw.dedup.insertionSort (· ≤ ·), hbins, ?_, ?_, ?_⟩
    · rw [hbins, getRifKey]
      cases hf : (raw.dedup.insertionSort (· ≤ ·)).find?
          (fun b => decide (rif ≤ b)) with
      | some b =>
        exact (hmemiff b).mp (find?_min_of_sorted hs hf).1
      | none =>
        cases hl : (raw.dedup.insertionSort (· ≤ ·)).getLast? with
        | none =>
          have : raw.dedup.insertionSort (· ≤ ·) = [] :=
            List.getLast?_eq_none_iff.mp hl
          have hdn : raw.dedup = [] := by
            have hp := List.perm_insertionSort (· ≤ ·) raw.dedup
            rw [this] at hp
            exact (List.Perm.nil_eq hp).symm
          exact absurd ((List.dedup_eq_nil raw).mp hdn) hraw
        | some lst =>
          exact (hmemiff lst).mp (List.mem_of_mem_getLast? hl)
    · rintro ⟨b0, hb0, hrb0⟩
      rw [hbins, getRifKey]
      cases hf : (raw.dedup.insertionSort (· ≤ ·)).find?
          (fun b => decide (rif ≤ b)) with
      | some b =>
        obtain ⟨hmem, hrb, hmin⟩ := find?_min_of_sorted hs hf
        exact ⟨hrb, fun c hc hrc => hmin c ((hmemiff c).mpr hc) hrc⟩
      | none =>
        have hall := List.find?_eq_none.mp hf
        exact absurd (by simpa using hall b0 ((hmemiff b0).mpr hb0))
          (by simpa using hrb0)
    · intro hall c hc
      rw [hbins, getRifKey]
      cases hf : (raw.dedup.insertionSort (· ≤ ·)).find?
          (fun b => decide (rif ≤ b)) with
      | some b =>
        have hb := (find?_min_of_sorted hs hf).1
        have := hall b ((hmemiff b).mp hb)
        exact absurd (find?_min_of_sorted hs hf).2.1 (not_le.mpr this)
      | none =>
        obtain ⟨lst, hl, hall⟩ := sorted_getLast_bound hs
          (List.ne_nil_of_mem ((hmemiff c).mpr hc))
        rw [hl]
        exact hall c ((hmemiff c).mpr hc)
  · intro m bins rif elapsed
    constructor
    · simp [recordLatency]
    · intro k hk
      simp [recordLatency, hk]

/-- C9 witness: bins `{10, 5}`, observed RIF `7` — the key exists,
lies in the configured set, and is the least bound at least `7`. -/
theorem C9_witness :
    ((7 : ℤ) ≤ getRifKey (mkRifBins [10, 5]) 7
      ∧ ∀ b ∈ [(10 : ℤ), 5], 7 ≤ b → getRifKey (mkRifBins [10, 5]) 7 ≤ b)
    ∧ getRifKey (mkRifBins [10, 5]) 7 ∈ [(10 : ℤ), 5] := by
  obtain ⟨bs, h1, h2, h3, h4⟩ := C9_rif_binning.2.1 [10, 5] 7 (by decide)
  exact ⟨h3 ⟨10, by decide, by decide⟩, h2⟩

end OpenPrequal
